import Mathlib

/-!
Verification of the VocalPath store-navigation core
(src/multi_tool_agent/agent.py).

The Python source is shallowly embedded below.  Coordinates are modelled as
rationals; Euclidean distances are real numbers.  Every comparison the source
makes between distances (or between a distance and a threshold) is expressed
on squared distances, which is equivalent because Real.sqrt is monotone; the
bridge lemmas distance_le_iff / distance_lt_distance_iff state this
equivalence exactly, and the claim theorems are phrased with the real
Euclidean distance.  Strings are modelled as lists of characters; Python's
`str.lower()` is modelled characterwise by `Char.toLower` (ASCII letters).
File I/O, report formatting, HTML rendering and voice glue are elided: each
embedded function takes the data its Python counterpart reads as an argument
and returns the data structure its counterpart computes.
-/

/-- Equality of `Except` results is decidable when both payloads are. -/
instance {ε α : Type _} [DecidableEq ε] [DecidableEq α] : DecidableEq (Except ε α) := fun x y =>
  match x, y with
  | .error a, .error b =>
    decidable_of_iff (a = b) ⟨fun h => by rw [h], fun h => by injection h⟩
  | .error _, .ok _ => isFalse (fun h => Except.noConfusion h)
  | .ok _, .error _ => isFalse (fun h => Except.noConfusion h)
  | .ok a, .ok b =>
    decidable_of_iff (a = b) ⟨fun h => by rw [h], fun h => by injection h⟩

namespace VocalPath

/-- A 2D point in store-local meters (the source's coordinate pairs
`(coordenada_x, coordenada_y)` and `(x, y)` tuples). -/
structure Pt where
  x : ℚ
  y : ℚ
deriving DecidableEq

/-- Squared Euclidean distance, kept rational so that it is decidable. -/
def sqDist (a b : Pt) : ℚ :=
  (a.x - b.x) ^ 2 + (a.y - b.y) ^ 2

/-- Euclidean distance between two points: `math.dist` / `utils.distance`
(`math.hypot(a[0]-b[0], a[1]-b[1])`). -/
noncomputable def distance (a b : Pt) : ℝ :=
  Real.sqrt ((sqDist a b : ℚ))

/-! ## Strings: Python `lower`, `strip`, `split`, substring test -/

/-- Python `str.lower()` on a string, characterwise (ASCII letters only,
which covers every comparison exercised by the source's demo data). -/
def lowerStr (s : List Char) : List Char :=
  s.map Char.toLower

/-- The whitespace characters recognised by Python `str.strip()` /
`str.split()` (ASCII range). -/
def isWs (c : Char) : Bool :=
  (c == ' ') || (c == '\t') || (c == '\n') || (c == '\r') || (c == '\x0b') || (c == '\x0c')

/-- Python `str.strip()`: drop whitespace from both ends. -/
def stripStr (s : List Char) : List Char :=
  ((s.dropWhile (fun c => isWs c)).reverse.dropWhile (fun c => isWs c)).reverse

/-- Helper for `splitWs`: `acc` is the current (reversed) run of
non-whitespace characters. -/
def splitWsAux : List Char → List Char → List (List Char)
  | [], acc => if acc = [] then [] else [acc.reverse]
  | c :: t, acc =>
    if isWs c then
      if acc = [] then splitWsAux t [] else acc.reverse :: splitWsAux t []
    else
      splitWsAux t (c :: acc)

/-- Python `str.split()` with no separator: the maximal runs of
non-whitespace characters, in order, with no empty pieces. -/
def splitWs (s : List Char) : List (List Char) :=
  splitWsAux s []

/-- Boolean prefix test on character lists. -/
def isPrefixC : List Char → List Char → Bool
  | [], _ => true
  | _ :: _, [] => false
  | a :: s, b :: t => (a == b) && isPrefixC s t

/-- Boolean contiguous-substring test: Python's `s in t` on strings. -/
def isSubstrC : List Char → List Char → Bool
  | s, [] => isPrefixC s []
  | s, b :: t => isPrefixC s (b :: t) || isSubstrC s t

/-- `s` occurs contiguously inside `t` (the propositional meaning of
Python's `s in t` on strings). -/
def SubstrOf (s t : List Char) : Prop :=
  ∃ u v, t = u ++ s ++ v

/-! ## guardar_lista_compras (agent.py 14-30) -/

/-- Error message of `guardar_lista_compras` for a blank input. -/
def msgListaVazia : String :=
  "Por favor indica pelo menos um produto para adicionar à lista."

/-- Core of `guardar_lista_compras` (agent.py 14-30), file I/O elided:
validate that the input is not blank, then store
`[item.strip().lower() for item in itens.replace(",", " ").split() if item.strip()]`. -/
def guardar_lista_compras (itens : List Char) : Except String (List (List Char)) :=
  if stripStr itens = [] then
    .error msgListaVazia
  else
    .ok (((splitWs (itens.map (fun c => if c == ',' then ' ' else c))).filter
        (fun item => !(stripStr item).isEmpty)).map (fun item => lowerStr (stripStr item)))

/-! ## obter_localizacoes_lista (agent.py 48-96) -/

/-- A record of the location database `TestDataProductsLocation.json`
(fields read at agent.py 64-74). -/
structure ProdutoLoc where
  nome_produto : List Char
  corredor : List Char
  seccao : List Char
  prateleira : List Char
  caixa : List Char
  coordenada_x : ℚ
  coordenada_y : ℚ
deriving DecidableEq

/-- Position of a database record. -/
def ProdutoLoc.pos (p : ProdutoLoc) : Pt :=
  ⟨p.coordenada_x, p.coordenada_y⟩

/-- A successfully-matched entry of the `resultados` list
(the dict built at agent.py 67-75, keyed by `produto`). -/
structure RotaItem where
  produto : List Char
  corredor : List Char
  seccao : List Char
  prateleira : List Char
  caixa : List Char
  coordenada_x : ℚ
  coordenada_y : ℚ
deriving DecidableEq

/-- Position of a matched entry. -/
def RotaItem.pos (p : RotaItem) : Pt :=
  ⟨p.coordenada_x, p.coordenada_y⟩

/-- The dict `obter_localizacoes_lista` appends for a match (agent.py 67-75). -/
def RotaItem.ofProduto (p : ProdutoLoc) : RotaItem :=
  ⟨p.nome_produto, p.corredor, p.seccao, p.prateleira, p.caixa,
    p.coordenada_x, p.coordenada_y⟩

/-- One element of the `resultados` list: either a located product dict or
the not-found dict `{"produto": item, "erro": ...}` (agent.py 77-80), which
keeps the requested text.  The constant error message is left implicit. -/
inductive Resultado where
  | ok (p : RotaItem)
  | erro (produto : List Char)
deriving DecidableEq

/-- The matches of one requested item (agent.py 64):
`[p for p in produtos if item.lower() in p["nome_produto"].lower()]`. -/
def correspondencias (item : List Char) (produtos : List ProdutoLoc) : List ProdutoLoc :=
  produtos.filter (fun p => isSubstrC (lowerStr item) (lowerStr p.nome_produto))

/-- Core of `obter_localizacoes_lista` (agent.py 62-80): the `resultados`
list built from the saved shopping list and the location database
(file I/O and the textual report elided). -/
def obter_localizacoes_lista (lista_itens : List (List Char))
    (produtos : List ProdutoLoc) : List Resultado :=
  lista_itens.flatMap (fun item =>
    let cs := correspondencias item produtos
    if cs = [] then [Resultado.erro item]
    else cs.map (fun p => Resultado.ok (RotaItem.ofProduto p)))

/-! ## gerar_rota_otimizada (agent.py 99-151) -/

/-- The filter at agent.py 106-109: entries without an `erro` key (entries
built by `obter_localizacoes_lista` always carry both coordinates, so the
two `in`-key tests there are redundant for them). -/
def okProds (resultados : List Resultado) : List RotaItem :=
  resultados.filterMap (fun r =>
    match r with
    | .ok p => some p
    | .erro _ => none)

/-- Error message of `gerar_rota_otimizada` when nothing can be routed
(agent.py 112). -/
def msgNenhumProduto : String :=
  "Nenhum produto com coordenadas encontrado."

/-- Python `min(a :: l, key=f)` with a rational key: the first element
attaining the minimal key (later elements replace the current best only on a
strictly smaller key). -/
def pyMinBy (f : α → ℚ) (a : α) (l : List α) : α :=
  l.foldl (fun best x => if f x < f best then x else best) a

/-- The nearest-neighbour loop of `gerar_rota_otimizada` (agent.py 121-138):
while unvisited products remain, append the unvisited product closest to the
current one.  `visitados` is the set of visited `produto` keys, `fuel` bounds
the iteration count (the Python loop adds one key per iteration, so
`produtos.length` iterations always suffice). -/
def nnLoop (produtos : List RotaItem) : ℕ → RotaItem → List (List Char) → List RotaItem
  | 0, _, _ => []
  | fuel + 1, atual, visitados =>
    if visitados.length < produtos.length then
      match produtos.filter (fun p => decide (p.produto ∉ visitados)) with
      | [] => []
      | q :: qs =>
        let proximo := pyMinBy (fun p => sqDist atual.pos p.pos) q qs
        proximo :: nnLoop produtos fuel proximo (proximo.produto :: visitados)
    else []

/-- Core of `gerar_rota_otimizada` (agent.py 99-151): filter the located
products, fail if none remain (lines 111-112), otherwise start the route at
the first located product (lines 117-119) and extend it greedily
(lines 121-138). -/
def gerar_rota_otimizada (resultados : List Resultado) : Except String (List RotaItem) :=
  match okProds resultados with
  | [] => .error msgNenhumProduto
  | p0 :: rest =>
    .ok (p0 :: nnLoop (p0 :: rest) (p0 :: rest).length p0 [p0.produto])

/-! ## sensors.py / agent.py embedded modules (agent.py 394-544) -/

/-- `sensors.Product` (agent.py 426-431). -/
structure Product where
  uid : List Char
  name : List Char
  position : Pt
  shelf_level : ℤ
deriving DecidableEq

/-- `StoreMap.find_by_name` (agent.py 440-444): the first product whose name
equals the query case-insensitively, if any (dict values in insertion
order). -/
def find_by_name (name : List Char) (products : List Product) : Option Product :=
  products.find? (fun p => lowerStr p.name == lowerStr name)

/-- `RFIDReader.scan` (agent.py 464-471), recursing over the catalog.
`draws` supplies the successive values of `random.random()` and `k` is the
index of the next draw; one draw is consumed per in-range product (Python's
`and` short-circuits, so out-of-range products consume none).  The in-range
test `d <= self.range` is expressed on squared distances:
`0 ≤ range ∧ sqDist ≤ range²` is exactly `distance ≤ range`
(lemma distance_le_iff). -/
noncomputable def scanAux (range_m noise_prob : ℚ) (position : Pt) :
    List Product → (ℕ → ℚ) → ℕ → List (List Char × ℝ)
  | [], _, _ => []
  | p :: ps, draws, k =>
    if 0 ≤ range_m ∧ sqDist position p.position ≤ range_m ^ 2 then
      if noise_prob < draws k then
        (p.uid, distance position p.position) :: scanAux range_m noise_prob position ps draws (k + 1)
      else
        scanAux range_m noise_prob position ps draws (k + 1)
    else
      scanAux range_m noise_prob position ps draws k

/-- `RFIDReader.scan` on a whole catalog (first draw has index 0). -/
noncomputable def scan (range_m noise_prob : ℚ) (position : Pt)
    (products : List Product) (draws : ℕ → ℚ) : List (List Char × ℝ) :=
  scanAux range_m noise_prob position products draws 0

/-- `ZebraDevice.sweep` (agent.py 489-495): beep iff the device is within
`sensitivity` of the product and at the product's shelf level.  The distance
test is expressed on squared distances (lemma distance_le_iff). -/
def sweep (sensitivity : ℚ) (product : Product) (device_pos : Pt)
    (device_height : ℤ) : Bool :=
  if (0 ≤ sensitivity ∧ sqDist product.position device_pos ≤ sensitivity ^ 2)
      ∧ product.shelf_level = device_height then
    true
  else
    false

/-- Python `round` on a real value: round half to even (banker's rounding),
as Python 3's `round` does; `int()` of the integral result is the identity. -/
noncomputable def pyround (x : ℝ) : ℤ :=
  if x - ⌊x⌋ < 1 / 2 then ⌊x⌋
  else if 1 / 2 < x - ⌊x⌋ then ⌊x⌋ + 1
  else if Even ⌊x⌋ then ⌊x⌋
  else ⌊x⌋ + 1

/-- `utils.meters_to_steps` (agent.py 400-402):
`max(1, int(round(meters / step_length_m)))`. -/
noncomputable def meters_to_steps (meters : ℝ) (step_length_m : ℝ) : ℤ :=
  max 1 (pyround (meters / step_length_m))

/-- `math.atan2 y x`: the angle of the vector `(x, y)` in `(-π, π]`
(floating-point signed zeros are not modelled). -/
noncomputable def atan2 (y x : ℝ) : ℝ :=
  if 0 < x then Real.arctan (y / x)
  else if x < 0 ∧ 0 ≤ y then Real.arctan (y / x) + Real.pi
  else if x < 0 ∧ y < 0 then Real.arctan (y / x) - Real.pi
  else if x = 0 ∧ 0 < y then Real.pi / 2
  else if x = 0 ∧ y < 0 then -(Real.pi / 2)
  else 0

/-- `math.degrees`. -/
noncomputable def degrees (r : ℝ) : ℝ :=
  r * (180 / Real.pi)

/-- `utils.direction_from_vector` (agent.py 404-416). -/
noncomputable def direction_from_vector (dx dy : ℝ) : String :=
  if |dx| < 0.3 ∧ |dy| < 0.3 then "em frente"
  else
    let angle := degrees (atan2 dy dx)
    if -45 ≤ angle ∧ angle ≤ 45 then "direita"
    else if 45 < angle ∧ angle ≤ 135 then "frente"
    else if 135 < angle ∨ angle < -135 then "esquerda"
    else "tras"

/-- The key `AgentAI.plan_route` sorts by (agent.py 529): distance from the
starting position, expressed on squared distances. -/
def planLe (c : Pt) (p q : Product) : Prop :=
  sqDist c p.position ≤ sqDist c q.position

instance (c : Pt) : DecidableRel (planLe c) :=
  fun p q => inferInstanceAs (Decidable (sqDist c p.position ≤ sqDist c q.position))

/-- The pairing loop of `AgentAI.plan_route` (agent.py 531-536): each sorted
product paired with the step count from the previous position. -/
noncomputable def routeSteps (prev : Pt) : List Product → List (Product × ℤ)
  | [] => []
  | p :: rest =>
    (p, meters_to_steps (distance prev p.position) (3 / 4)) :: routeSteps p.position rest

/-- `AgentAI.plan_route` (agent.py 519-537): look every item up by name
(items that resolve to nothing are only warned about on the console and
contribute nothing), sort the found products once by distance from
`current_pos` (Python's stable `list.sort(key=...)`, modelled by insertion
sort, which computes the same stable result), then pair with step counts. -/
noncomputable def plan_route (current_pos : Pt) (items : List (List Char))
    (products : List Product) : List (Product × ℤ) :=
  let found := items.filterMap (fun it => find_by_name it products)
  routeSteps current_pos (found.insertionSort (planLe current_pos))

/-! ## Nearest-neighbour selection, propositionally -/

/-- `b` is the product a nearest-neighbour step from `a` selects, given the
input collection `produtos` and visited keys `vis`: among the unvisited
products (in input order) `b` occurs with minimal squared distance from `a`,
strictly closer than every unvisited product listed before it. -/
def StepMin (produtos : List RotaItem) (a : RotaItem) (vis : List (List Char))
    (b : RotaItem) : Prop :=
  ∃ l1 l2,
    produtos.filter (fun p => decide (p.produto ∉ vis)) = l1 ++ b :: l2 ∧
    (∀ q ∈ l1, sqDist a.pos b.pos < sqDist a.pos q.pos) ∧
    (∀ q ∈ l1 ++ b :: l2, sqDist a.pos b.pos ≤ sqDist a.pos q.pos)

/-- Every consecutive pair of the emitted route satisfies `StepMin`, with the
visited keys accumulating along the way. -/
def ChainNN (produtos : List RotaItem) : RotaItem → List (List Char) → List RotaItem → Prop
  | _, _, [] => True
  | a, vis, b :: rest =>
    StepMin produtos a vis b ∧ ChainNN produtos b (b.produto :: vis) rest

/-! ## Concrete data used by witnesses and counterexamples -/

/-- Route item at the origin (named "a"). -/
def exA : RotaItem :=
  ⟨[Char.ofNat 97], [], [], [], [], 0, 0⟩

/-- Route item at (3, 0) (named "b"). -/
def exB : RotaItem :=
  ⟨[Char.ofNat 98], [], [], [], [], 3, 0⟩

/-- Route item at (3, 4) (named "c"). -/
def exC : RotaItem :=
  ⟨[Char.ofNat 99], [], [], [], [], 3, 4⟩

/-- The matched-results list for the three-stop example route. -/
def exRes : List Resultado :=
  [Resultado.ok exA, Resultado.ok exB, Resultado.ok exC]

/-- The route the code computes on `exRes`. -/
def exRota : List RotaItem :=
  [exA, exB, exC]

/-- First-listed product, far from the origin: position (5, 5), named "f". -/
def cexFar : RotaItem :=
  ⟨[Char.ofNat 102], [], [], [], [], 5, 5⟩

/-- Second-listed product, near the origin: position (1, 1), named "n". -/
def cexNear : RotaItem :=
  ⟨[Char.ofNat 110], [], [], [], [], 1, 1⟩

/-- A catalog product "Leite Magro" at (2, 1), shelf 1. -/
def exLeiteMagro : Product :=
  ⟨"tag001".toList, "Leite Magro".toList, ⟨2, 1⟩, 1⟩

/-- A one-product store catalog. -/
def exCatalog : List Product :=
  [exLeiteMagro]

/-- The query "leite". -/
def exQuery : List Char :=
  "leite".toList

/-- A catalog product named exactly "leite" at (2, 1), shelf 1. -/
def exLeite : Product :=
  ⟨"tag001".toList, "leite".toList, ⟨2, 1⟩, 1⟩

/-- A store catalog containing only `exLeite`. -/
def exStore : List Product :=
  [exLeite]

/-- A requested item matching nothing: "chocolate". -/
def exMissing : List Char :=
  "chocolate".toList

/-- Scanner test: first-listed product far from the origin (3, 4). -/
def scanFar : Product :=
  ⟨"far".toList, "farprod".toList, ⟨3, 4⟩, 0⟩

/-- Scanner test: second-listed product near the origin (1, 0). -/
def scanNear : Product :=
  ⟨"near".toList, "nearprod".toList, ⟨1, 0⟩, 0⟩

/-- A deterministic draw stream: every draw is 1/2. -/
def halfDraws : ℕ → ℚ :=
  fun _ => 1 / 2

/-- A one-record location database containing "Leite Magro" at (2, 1). -/
def exProdLocs : List ProdutoLoc :=
  [⟨"Leite Magro".toList, [], [], [], [], 2, 1⟩]

/-! # Theorems -/

/-! ## Geometry bridges -/

theorem sqDist_nonneg (a b : Pt) : 0 ≤ sqDist a b :=
  add_nonneg (sq_nonneg _) (sq_nonneg _)

/-- Bridge: the source's test `distance <= r` is exactly `0 ≤ r ∧ sqDist ≤ r^2`. -/
theorem distance_le_iff (a b : Pt) (r : ℚ) :
    distance a b ≤ (r : ℝ) ↔ 0 ≤ r ∧ sqDist a b ≤ r ^ 2 := by
  rw [distance, Real.sqrt_le_iff]
  constructor
  · rintro ⟨h1, h2⟩
    exact ⟨by exact_mod_cast h1, by exact_mod_cast h2⟩
  · rintro ⟨h1, h2⟩
    exact ⟨by exact_mod_cast h1, by exact_mod_cast h2⟩

/-- Bridge: comparing two Euclidean distances is the same as comparing the
squared distances. -/
theorem distance_lt_distance_iff (a b c d : Pt) :
    distance a b < distance c d ↔ sqDist a b < sqDist c d := by
  rw [distance, distance,
    Real.sqrt_lt_sqrt_iff (by exact_mod_cast sqDist_nonneg a b)]
  exact_mod_cast Iff.rfl

theorem distance_le_distance_iff (a b c d : Pt) :
    distance a b ≤ distance c d ↔ sqDist a b ≤ sqDist c d := by
  rw [← not_lt, ← not_lt, not_iff_not]
  exact distance_lt_distance_iff c d a b

/-! ## Substring test -/

theorem isPrefixC_iff (s t : List Char) : isPrefixC s t = true ↔ ∃ v, t = s ++ v := by
  induction s generalizing t with
  | nil => simp [isPrefixC]
  | cons a s ih =>
    cases t with
    | nil => simp [isPrefixC]
    | cons b t =>
      simp only [isPrefixC, Bool.and_eq_true, beq_iff_eq, ih, List.cons_append]
      constructor
      · rintro ⟨rfl, v, rfl⟩
        exact ⟨v, rfl⟩
      · rintro ⟨v, hv⟩
        injection hv with h1 h2
        exact ⟨h1.symm, v, h2⟩

theorem isSubstrC_iff (s t : List Char) : isSubstrC s t = true ↔ SubstrOf s t := by
  induction t with
  | nil =>
    simp only [isSubstrC, isPrefixC_iff, SubstrOf]
    constructor
    · rintro ⟨v, hv⟩
      exact ⟨[], v, by simpa using hv⟩
    · rintro ⟨u, v, huv⟩
      rcases List.append_eq_nil.mp ((List.append_assoc u s v) ▸ huv).symm with ⟨h1, h2⟩
      rcases List.append_eq_nil.mp h2 with ⟨h3, h4⟩
      exact ⟨v, by simp [h3, h4]⟩
  | cons b t ih =>
    simp only [isSubstrC, Bool.or_eq_true, isPrefixC_iff, ih, SubstrOf]
    constructor
    · rintro (⟨v, hv⟩ | ⟨u, v, huv⟩)
      · exact ⟨[], v, by simpa using hv⟩
      · exact ⟨b :: u, v, by simp [huv]⟩
    · rintro ⟨u, v, huv⟩
      cases u with
      | nil => exact Or.inl ⟨v, by simpa using huv⟩
      | cons c u =>
        injection huv with h1 h2
        exact Or.inr ⟨u, v, h2⟩

/-! ## C3: name lookup -/

/-- C3 (amended): the list-location matcher `obter_localizacoes_lista`
returns, for a requested item, exactly the products whose display name
contains the item as a case-insensitive substring (zero, one or many of
them); `StoreMap.find_by_name`, by contrast, returns only the first product
whose name equals the query case-insensitively, and `none` when no name is
exactly equal. -/
theorem name_lookup_contract :
    (∀ item produtos (p : ProdutoLoc),
      p ∈ correspondencias item produtos ↔
        p ∈ produtos ∧ SubstrOf (lowerStr item) (lowerStr p.nome_produto)) ∧
    (∀ nm products,
      (find_by_name nm products = none ↔
        ∀ p ∈ products, lowerStr p.name ≠ lowerStr nm) ∧
      (∀ p, find_by_name nm products = some p →
        p ∈ products ∧ lowerStr p.name = lowerStr nm)) := by
  refine ⟨fun item produtos p => ?_, fun nm products => ⟨?_, fun p hp => ?_⟩⟩
  · rw [correspondencias, List.mem_filter, isSubstrC_iff]
  · rw [find_by_name, List.find?_eq_none]
    constructor
    · intro h p hp
      simpa using h p hp
    · intro h p hp
      simpa using h p hp
  · refine ⟨List.mem_of_find?_eq_some hp, ?_⟩
    have := List.find?_some hp
    simpa using this

/-- C3 witness: on a concrete one-product catalog whose single name "Leite
Magro" properly contains the query "leite", `find_by_name` returns `none`. -/
theorem name_lookup_contract_witness :
    find_by_name exQuery exCatalog = none :=
  ((name_lookup_contract.2 exQuery exCatalog).1).mpr (by decide)

/-- C3 counterexample: "leite" occurs case-insensitively in the name of a
catalog product, yet the name-lookup `find_by_name` returns no product at
all — it is an exact-match, first-only lookup, not a substring search. -/
theorem find_by_name_not_substring_cex :
    SubstrOf (lowerStr exQuery) (lowerStr exLeiteMagro.name) ∧
    exLeiteMagro ∈ exCatalog ∧
    find_by_name exQuery exCatalog = none :=
  ⟨(isSubstrC_iff _ _).mp (by decide), by decide, by decide⟩

/-! ## C9: ZebraDevice.sweep -/

/-- C9: `sweep` beeps exactly when the device is within the sensitivity
radius of the product's position and at the product's shelf level; a height
mismatch alone, or an out-of-range position alone, each force `false`. -/
theorem sweep_iff :
    ∀ (sensitivity : ℚ) (product : Product) (device_pos : Pt) (device_height : ℤ),
      (sweep sensitivity product device_pos device_height = true ↔
        distance product.position device_pos ≤ (sensitivity : ℝ) ∧
        product.shelf_level = device_height) ∧
      (product.shelf_level ≠ device_height →
        sweep sensitivity product device_pos device_height = false) ∧
      (¬ distance product.position device_pos ≤ (sensitivity : ℝ) →
        sweep sensitivity product device_pos device_height = false) := by
  intro s p dp dh
  have hiff : sweep s p dp dh = true ↔
      distance p.position dp ≤ (s : ℝ) ∧ p.shelf_level = dh := by
    rw [sweep, distance_le_iff]
    by_cases h : (0 ≤ s ∧ sqDist p.position dp ≤ s ^ 2) ∧ p.shelf_level = dh
    · simp [h, h.1, h.2]
    · simp only [if_neg h]
      constructor
      · intro hfalse
        exact absurd hfalse (by simp)
      · intro hc
        exact absurd ⟨hc.1, hc.2⟩ h
  refine ⟨hiff, fun hne => ?_, fun hnd => ?_⟩
  · rcases Bool.eq_false_or_eq_true (sweep s p dp dh) with h | h
    · exact absurd (hiff.mp h).2 hne
    · exact h
  · rcases Bool.eq_false_or_eq_true (sweep s p dp dh) with h | h
    · exact absurd (hiff.mp h).1 hnd
    · exact h

/-- C9 witness: at the product's exact position but the wrong height the
device stays silent, and at the right height but out of range it stays
silent. -/
theorem sweep_iff_witness :
    sweep 1 exLeite ⟨2, 1⟩ 0 = false ∧ sweep 1 exLeite ⟨5, 5⟩ 1 = false :=
  ⟨(sweep_iff 1 exLeite ⟨2, 1⟩ 0).2.1 (by decide),
    (sweep_iff 1 exLeite ⟨5, 5⟩ 1).2.2 (fun hle =>
      absurd ((distance_le_iff _ _ _).mp hle).2 (by norm_num [sqDist, exLeite]))⟩

/-! ## C4: empty matched set -/

/-- C4 (amended): when nothing was located, `gerar_rota_otimizada` returns
the explicit error result of lines 111-112 (not an empty route), while
`AgentAI.plan_route` returns an empty route list. -/
theorem empty_matches_route :
    (∀ res, okProds res = [] →
      gerar_rota_otimizada res = Except.error msgNenhumProduto) ∧
    (∀ (pos : Pt) items store, (∀ it ∈ items, find_by_name it store = none) →
      plan_route pos items store = []) := by
  constructor
  · intro res h
    simp [gerar_rota_otimizada, h]
  · intro pos items store h
    have hf : items.filterMap (fun it => find_by_name it store) = [] := by
      induction items with
      | nil => rfl
      | cons it its ih =>
        rw [List.filterMap_cons, h it (List.mem_cons_self it its)]
        exact ih (fun i hi => h i (List.mem_cons_of_mem it hi))
    simp [plan_route, hf, routeSteps]

/-- C4 witness: a results list whose only entry is a not-found marker gives
the error result from `gerar_rota_otimizada` and an empty route from
`plan_route`. -/
theorem empty_matches_route_witness :
    okProds [Resultado.erro exMissing] = [] ∧
    gerar_rota_otimizada [Resultado.erro exMissing] = Except.error msgNenhumProduto ∧
    plan_route ⟨0, 0⟩ [exMissing] exStore = [] :=
  ⟨by decide, empty_matches_route.1 _ (by decide),
    empty_matches_route.2 ⟨0, 0⟩ [exMissing] exStore (by decide)⟩

/-- C4 counterexample: with an empty matched set the route generator does
not produce an empty route — it produces an error outcome (status "error"
with the message of line 112). -/
theorem gerar_rota_empty_error_cex :
    gerar_rota_otimizada [Resultado.erro exMissing] = Except.error msgNenhumProduto ∧
    gerar_rota_otimizada [Resultado.erro exMissing] ≠ Except.ok [] := by
  exact ⟨by decide, by decide⟩

/-! ## C5: not-found items are preserved and do not abort -/

/-- C5: the matcher processes the requested items independently: an item
with no catalog match contributes exactly one not-found marker that carries
the requested text, placed at the item's position in the output, and the
items before and after it are matched exactly as they would be on their own;
not-found markers are invisible to route generation (`okProds`), and in
`plan_route` an unresolvable item leaves the route of the remaining items
unchanged. -/
theorem matcher_not_found_preserved :
    ∀ produtos pre item suf,
      (obter_localizacoes_lista (pre ++ item :: suf) produtos =
        obter_localizacoes_lista pre produtos ++
        (if correspondencias item produtos = [] then [Resultado.erro item]
         else (correspondencias item produtos).map
           (fun p => Resultado.ok (RotaItem.ofProduto p))) ++
        obter_localizacoes_lista suf produtos) ∧
      (correspondencias item produtos = [] →
        Resultado.erro item ∈ obter_localizacoes_lista (pre ++ item :: suf) produtos) ∧
      (∀ ress1 ress2,
        okProds (ress1 ++ Resultado.erro item :: ress2) = okProds (ress1 ++ ress2)) ∧
      (∀ (pos : Pt) (store : List Product) pre2 suf2,
        find_by_name item store = none →
        plan_route pos (pre2 ++ item :: suf2) store = plan_route pos (pre2 ++ suf2) store) := by
  intro produtos pre item suf
  have h1 : obter_localizacoes_lista (pre ++ item :: suf) produtos =
      obter_localizacoes_lista pre produtos ++
      (if correspondencias item produtos = [] then [Resultado.erro item]
       else (correspondencias item produtos).map
         (fun p => Resultado.ok (RotaItem.ofProduto p))) ++
      obter_localizacoes_lista suf produtos := by
    simp only [obter_localizacoes_lista, List.flatMap_append, List.flatMap_cons,
      List.append_assoc]
  refine ⟨h1, fun hnone => ?_, fun ress1 ress2 => ?_, fun pos store pre2 suf2 hfn => ?_⟩
  · rw [h1, if_pos hnone]
    simp
  · simp [okProds, List.filterMap_append, List.filterMap_cons]
  · simp [plan_route, List.filterMap_append, List.filterMap_cons, hfn]

/-- C5 witness: "chocolate" matches nothing in the demo database, its
not-found marker (still carrying the text "chocolate") appears in the
output, and dropping it from a shopping list leaves `plan_route` unchanged. -/
theorem matcher_not_found_preserved_witness :
    correspondencias exMissing exProdLocs = [] ∧
    Resultado.erro exMissing ∈
      obter_localizacoes_lista ([] ++ exMissing :: [exQuery]) exProdLocs ∧
    plan_route ⟨0, 0⟩ ([] ++ exMissing :: [exQuery]) exStore =
      plan_route ⟨0, 0⟩ ([] ++ [exQuery]) exStore :=
  ⟨by decide,
    (matcher_not_found_preserved exProdLocs [] exMissing [exQuery]).2.1 (by decide),
    (matcher_not_found_preserved exProdLocs [] exMissing [exQuery]).2.2.2 ⟨0, 0⟩ exStore [] [exQuery] (by decide)⟩

/-! ## Character facts for C10 -/

theorem char_toNat_inj {a b : Char} (h : a.toNat = b.toNat) : a = b :=
  Char.ext (UInt32.toNat.inj h)

theorem toNat_charOfNat {n : ℕ} (h : n < 55296) : (Char.ofNat n).toNat = n := by
  have hv : n.isValidChar := Or.inl h
  rw [Char.ofNat, dif_pos hv]
  rfl

theorem toNat_toLower (c : Char) :
    (Char.toLower c).toNat =
      if 65 ≤ c.toNat ∧ c.toNat ≤ 90 then c.toNat + 32 else c.toNat := by
  by_cases h : 65 ≤ c.toNat ∧ c.toNat ≤ 90
  · rw [if_pos h, Char.toLower, if_pos h]
    exact toNat_charOfNat (by omega)
  · rw [if_neg h, Char.toLower, if_neg h]

/-- `Char.toLower` never outputs an upper-case ASCII letter, never outputs a
space unless the space came in, and never outputs a comma unless the comma
came in. -/
theorem toLower_output (c : Char) :
    ¬(65 ≤ (Char.toLower c).toNat ∧ (Char.toLower c).toNat ≤ 90) ∧
    (c ≠ ' ' → Char.toLower c ≠ ' ') ∧
    (c ≠ ',' → Char.toLower c ≠ ',') := by
  have ht := toNat_toLower c
  by_cases h : 65 ≤ c.toNat ∧ c.toNat ≤ 90
  · rw [if_pos h] at ht
    refine ⟨by omega, fun _ he => ?_, fun _ he => ?_⟩
    · rw [he] at ht
      have h32 : (' ').toNat = 32 := rfl
      omega
    · rw [he] at ht
      have h44 : (',').toNat = 44 := rfl
      omega
  · rw [if_neg h] at ht
    exact ⟨by omega, fun hne he => hne (char_toNat_inj (by rw [← ht, he])),
      fun hne he => hne (char_toNat_inj (by rw [← ht, he]))⟩

/-! ## Whitespace splitting facts for C10 -/

theorem dropWhile_eq_self_of_false {p : Char → Bool} {l : List Char}
    (h : ∀ c ∈ l, p c = false) : l.dropWhile p = l := by
  cases l with
  | nil => rfl
  | cons a t =>
    rw [List.dropWhile_cons, h a (List.mem_cons_self a t)]
    simp

theorem stripStr_eq_self {w : List Char} (h : ∀ c ∈ w, isWs c = false) :
    stripStr w = w := by
  rw [stripStr, dropWhile_eq_self_of_false h,
    dropWhile_eq_self_of_false (fun c hc => h c (List.mem_reverse.mp hc)),
    List.reverse_reverse]

theorem stripStr_subset (w : List Char) : ∀ c ∈ stripStr w, c ∈ w := by
  intro c hc
  rw [stripStr] at hc
  have h1 := List.mem_reverse.mp hc
  have h2 := List.dropWhile_subset (fun c => isWs c) h1
  have h3 := List.mem_reverse.mp h2
  exact List.dropWhile_subset (fun c => isWs c) h3

/-- Every piece produced by `splitWsAux` is non-empty, whitespace-free, and
made of characters of the input (or of the accumulator). -/
theorem splitWsAux_mem :
    ∀ (s acc : List Char) (w : List Char), w ∈ splitWsAux s acc →
      (∀ c ∈ acc, isWs c = false) →
      w ≠ [] ∧ ∀ c ∈ w, isWs c = false ∧ (c ∈ s ∨ c ∈ acc) := by
  intro s
  induction s with
  | nil =>
    intro acc w hw hacc
    rw [splitWsAux] at hw
    by_cases h : acc = []
    · rw [if_pos h] at hw
      exact absurd hw (List.not_mem_nil w)
    · rw [if_neg h] at hw
      rcases List.mem_singleton.mp hw with rfl
      refine ⟨fun he => h (by simpa using he), fun c hc => ?_⟩
      have hc2 := List.mem_reverse.mp hc
      exact ⟨hacc c hc2, Or.inr hc2⟩
  | cons c0 t ih =>
    intro acc w hw hacc
    rw [splitWsAux] at hw
    by_cases hws : isWs c0
    · rw [if_pos hws] at hw
      by_cases h : acc = []
      · rw [if_pos h] at hw
        rcases ih [] w hw (fun c hc => absurd hc (List.not_mem_nil c)) with ⟨h1, h2⟩
        refine ⟨h1, fun c hc => ?_⟩
        rcases h2 c hc with ⟨h3, h4 | h4⟩
        · exact ⟨h3, Or.inl (List.mem_cons_of_mem c0 h4)⟩
        · exact absurd h4 (List.not_mem_nil c)
      · rw [if_neg h] at hw
        rcases List.mem_cons.mp hw with rfl | hw2
        · refine ⟨fun he => h (by simpa using he), fun c hc => ?_⟩
          have hc2 := List.mem_reverse.mp hc
          exact ⟨hacc c hc2, Or.inr hc2⟩
        · rcases ih [] w hw2 (fun c hc => absurd hc (List.not_mem_nil c)) with ⟨h1, h2⟩
          refine ⟨h1, fun c hc => ?_⟩
          rcases h2 c hc with ⟨h3, h4 | h4⟩
          · exact ⟨h3, Or.inl (List.mem_cons_of_mem c0 h4)⟩
          · exact absurd h4 (List.not_mem_nil c)
    · rw [if_neg hws] at hw
      have hacc2 : ∀ c ∈ c0 :: acc, isWs c = false := by
        intro c hc
        rcases List.mem_cons.mp hc with rfl | hc2
        · exact Bool.eq_false_iff.mpr hws
        · exact hacc c hc2
      rcases ih (c0 :: acc) w hw hacc2 with ⟨h1, h2⟩
      refine ⟨h1, fun c hc => ?_⟩
      rcases h2 c hc with ⟨h3, h4 | h4⟩
      · exact ⟨h3, Or.inl (List.mem_cons_of_mem c0 h4)⟩
      · rcases List.mem_cons.mp h4 with rfl | h5
        · exact ⟨h3, Or.inl (List.mem_cons_self c t)⟩
        · exact ⟨h3, Or.inr h5⟩

/-! ## C10: what guardar_lista_compras stores -/

/-- C10: on a successful save every stored item is non-empty, contains no
space, no comma and no upper-case ASCII letter (for a space that is immediate
from whitespace-splitting, for a comma from the comma replacement, and for
case from the final lower-casing); consequently a multi-word name is stored
as several one-word items, e.g. "leite magro" is stored as the two items
"leite" and "magro". -/
theorem guardar_lista_tokens :
    (∀ itens stored, guardar_lista_compras itens = Except.ok stored →
      ∀ item ∈ stored, item ≠ [] ∧
        ∀ c ∈ item, c ≠ ' ' ∧ c ≠ ',' ∧ ¬(65 ≤ c.toNat ∧ c.toNat ≤ 90)) ∧
    guardar_lista_compras ("leite magro".toList) =
      Except.ok ["leite".toList, "magro".toList] := by
  constructor
  · intro itens stored hok item hitem
    rw [guardar_lista_compras] at hok
    by_cases hblank : stripStr itens = []
    · rw [if_pos hblank] at hok
      exact absurd hok (fun h => Except.noConfusion h)
    · rw [if_neg hblank] at hok
      injection hok with hok
      rw [← hok] at hitem
      rcases List.mem_map.mp hitem with ⟨piece, hpiece, rfl⟩
      have hpiece2 := List.mem_filter.mp hpiece
      have hmem := splitWsAux_mem _ [] piece hpiece2.1
        (fun c hc => absurd hc (List.not_mem_nil c))
      rcases hmem with ⟨hne, hchars⟩
      have hstrip : stripStr piece = piece :=
        stripStr_eq_self (fun c hc => (hchars c hc).1)
      constructor
      · rw [hstrip]
        intro he
        rw [lowerStr] at he
        exact hne (List.map_eq_nil_iff.mp he)
      · intro c hc
        rcases List.mem_map.mp hc with ⟨c0, hc0, rfl⟩
        rw [hstrip] at hc0
        have hc0ws := (hchars c0 hc0).1
        have hc0src := (hchars c0 hc0).2
        have hc0ne : c0 ≠ ' ' := by
          intro he
          rw [he] at hc0ws
          exact absurd hc0ws (by decide)
        have hc0nc : c0 ≠ ',' := by
          rcases hc0src with h | h
          · rcases List.mem_map.mp h with ⟨c1, _, rfl⟩
            by_cases hcomma : c1 == ','
            · intro he
              rw [if_pos hcomma] at he
              exact absurd he (by decide)
            · rw [if_neg hcomma]
              exact fun he => hcomma (by rw [he]; decide)
          · exact absurd h (List.not_mem_nil c0)
        rcases toLower_output c0 with ⟨h1, h2, h3⟩
        exact ⟨h2 hc0ne, h3 hc0nc, h1⟩
  · decide

/-- C10 witness: "leite magro" is stored as the two one-word items "leite"
and "magro", the first of which is non-empty and starts with a letter that
is neither a space, nor a comma, nor upper-case. -/
theorem guardar_lista_tokens_witness :
    guardar_lista_compras ("leite magro".toList) =
      Except.ok ["leite".toList, "magro".toList] ∧
    "leite".toList ≠ [] ∧
    ('l' ≠ ' ' ∧ 'l' ≠ ',' ∧ ¬(65 ≤ 'l'.toNat ∧ 'l'.toNat ≤ 90)) :=
  ⟨guardar_lista_tokens.2,
    (guardar_lista_tokens.1 ("leite magro".toList) _ guardar_lista_tokens.2
      ("leite".toList) (by decide)).1,
    (guardar_lista_tokens.1 ("leite magro".toList) _ guardar_lista_tokens.2
      ("leite".toList) (by decide)).2 'l' (by decide)⟩

/-! ## C8: meters_to_steps -/

theorem pyround_bounds (x : ℝ) : ⌊x⌋ ≤ pyround x ∧ pyround x ≤ ⌊x⌋ + 1 := by
  rw [pyround]
  split_ifs <;> omega

theorem pyround_mono {a b : ℝ} (h : a ≤ b) : pyround a ≤ pyround b := by
  rcases lt_or_eq_of_le (Int.floor_le_floor h) with hf | hf
  · have h1 := (pyround_bounds a).2
    have h2 := (pyround_bounds b).1
    omega
  · rw [pyround, pyround, ← hf]
    have hfa := Int.floor_le a
    split_ifs <;> first | omega | (exfalso; linarith)

/-- C8: `meters_to_steps meters 0.75` is `max(1, round(meters / 0.75))`
(with Python's round-half-to-even), it is monotone in `meters`, and it is at
least one step for every positive distance. -/
theorem meters_to_steps_spec :
    (∀ m : ℝ, meters_to_steps m (3 / 4) = max 1 (pyround (m / (3 / 4)))) ∧
    (∀ a b : ℝ, a ≤ b → meters_to_steps a (3 / 4) ≤ meters_to_steps b (3 / 4)) ∧
    (∀ m : ℝ, 0 < m → 1 ≤ meters_to_steps m (3 / 4)) := by
  refine ⟨fun m => rfl, fun a b hab => ?_, fun m _ => le_max_left 1 _⟩
  exact max_le_max (le_refl 1)
    (pyround_mono ((div_le_div_iff_of_pos_right (by norm_num)).mpr hab))

/-- C8 witness: 3 ≤ 4 meters gives monotone step counts, and 3 meters is at
least one step. -/
theorem meters_to_steps_spec_witness :
    ((3 : ℝ) ≤ 4 ∧ meters_to_steps 3 (3 / 4) ≤ meters_to_steps 4 (3 / 4)) ∧
    ((0 : ℝ) < 3 ∧ 1 ≤ meters_to_steps 3 (3 / 4)) :=
  ⟨⟨by norm_num, meters_to_steps_spec.2.1 3 4 (by norm_num)⟩,
    ⟨by norm_num, meters_to_steps_spec.2.2 3 (by norm_num)⟩⟩

/-! ## C7: direction classification -/

theorem atan2_range (y x : ℝ) : -Real.pi < atan2 y x ∧ atan2 y x ≤ Real.pi := by
  have hpi := Real.pi_pos
  rw [atan2]
  split_ifs with h1 h2 h3 h4 h5
  · exact ⟨by linarith [Real.neg_pi_div_two_lt_arctan (y / x)],
      by linarith [Real.arctan_lt_pi_div_two (y / x)]⟩
  · have hyx : y / x ≤ 0 := div_nonpos_iff.mpr (Or.inl ⟨h2.2, h2.1.le⟩)
    have harc : Real.arctan (y / x) ≤ 0 := by
      have := Real.arctan_strictMono.monotone hyx
      rwa [Real.arctan_zero] at this
    exact ⟨by linarith [Real.neg_pi_div_two_lt_arctan (y / x)], by linarith⟩
  · have hyx : 0 < y / x := div_pos_iff.mpr (Or.inr ⟨h3.2, h3.1⟩)
    have harc : 0 < Real.arctan (y / x) := by
      have := Real.arctan_strictMono hyx
      rwa [Real.arctan_zero] at this
    exact ⟨by linarith, by linarith [Real.arctan_lt_pi_div_two (y / x)]⟩
  · exact ⟨by linarith, by linarith⟩
  · exact ⟨by linarith, by linarith⟩
  · exact ⟨by linarith, by linarith⟩

theorem degrees_range {θ : ℝ} (h1 : -Real.pi < θ) (h2 : θ ≤ Real.pi) :
    -180 < degrees θ ∧ degrees θ ≤ 180 := by
  have hpi := Real.pi_pos
  have hc : (0 : ℝ) < 180 / Real.pi := by positivity
  constructor
  · have hm := mul_lt_mul_of_pos_right h1 hc
    have he : -Real.pi * (180 / Real.pi) = -180 := by
      field_simp
      ring
    rw [degrees]
    linarith
  · have hm := mul_le_mul_of_nonneg_right h2 hc.le
    have he : Real.pi * (180 / Real.pi) = 180 := by
      field_simp
    rw [degrees]
    linarith

/-- C7: the direction classifier special-cases a near-zero vector (both
components below 0.3) to the distinct label "em frente" before any angle
computation; otherwise the labels partition the angle
`degrees (atan2 dy dx) ∈ (-180, 180]` into exactly four 90°-wide sectors
with boundaries at ±45° and ±135°: "direita" is centred on 0°, "frente" on
90°, "esquerda" on 180°/−180° and "tras" on −90°. -/
theorem direction_from_vector_sectors :
    ∀ dx dy : ℝ,
      ((|dx| < 0.3 ∧ |dy| < 0.3) → direction_from_vector dx dy = "em frente") ∧
      (¬(|dx| < 0.3 ∧ |dy| < 0.3) →
        (-180 < degrees (atan2 dy dx) ∧ degrees (atan2 dy dx) ≤ 180) ∧
        (direction_from_vector dx dy = "direita" ↔
          -45 ≤ degrees (atan2 dy dx) ∧ degrees (atan2 dy dx) ≤ 45) ∧
        (direction_from_vector dx dy = "frente" ↔
          45 < degrees (atan2 dy dx) ∧ degrees (atan2 dy dx) ≤ 135) ∧
        (direction_from_vector dx dy = "esquerda" ↔
          135 < degrees (atan2 dy dx) ∨ degrees (atan2 dy dx) < -135) ∧
        (direction_from_vector dx dy = "tras" ↔
          -135 ≤ degrees (atan2 dy dx) ∧ degrees (atan2 dy dx) < -45)) := by
  intro dx dy
  constructor
  · intro h
    rw [direction_from_vector, if_pos h]
  · intro h
    have hr := degrees_range (atan2_range dy dx).1 (atan2_range dy dx).2
    refine ⟨hr, ?_⟩
    rw [direction_from_vector, if_neg h]
    set θ := degrees (atan2 dy dx) with hθ
    by_cases c1 : -45 ≤ θ ∧ θ ≤ 45
    · rw [if_pos c1]
      refine ⟨iff_of_true rfl c1, iff_of_false (by decide) ?_,
        iff_of_false (by decide) ?_, iff_of_false (by decide) ?_⟩
      · rintro ⟨h45, _⟩
        linarith [c1.2]
      · rintro (h135 | h135)
        · linarith [c1.2]
        · linarith [c1.1]
      · rintro ⟨_, h45⟩
        linarith [c1.1]
    · rw [if_neg c1]
      by_cases c2 : 45 < θ ∧ θ ≤ 135
      · rw [if_pos c2]
        refine ⟨iff_of_false (by decide) c1, iff_of_true rfl c2,
          iff_of_false (by decide) ?_, iff_of_false (by decide) ?_⟩
        · rintro (h135 | h135)
          · linarith [c2.2]
          · linarith [c2.1]
        · rintro ⟨_, h45⟩
          linarith [c2.1]
      · rw [if_neg c2]
        by_cases c3 : 135 < θ ∨ θ < -135
        · rw [if_pos c3]
          refine ⟨iff_of_false (by decide) c1, iff_of_false (by decide) c2,
            iff_of_true rfl c3, iff_of_false (by decide) ?_⟩
          rintro ⟨h135, h45⟩
          rcases c3 with h | h
          · linarith
          · linarith
        · rw [if_neg c3]
          push_neg at c1 c2 c3
          have hlt : θ < -45 := by
            by_contra hge
            push_neg at hge
            have ha := c1 hge
            have hb := c2 ha
            linarith [c3.1]
          refine ⟨iff_of_false (by decide) ?_, iff_of_false (by decide) ?_,
            iff_of_false (by decide) ?_, iff_of_true rfl ⟨c3.2, hlt⟩⟩
          · rintro ⟨_, h45⟩
            linarith
          · rintro ⟨h45, _⟩
            linarith
          · rintro (h135 | h135)
            · linarith [c3.1]
            · linarith [c3.2]

/-- C7 witness: the vector (1, 0) is outside the near-zero box and is
classified "direita" (its angle is 0°). -/
theorem direction_from_vector_sectors_witness :
    direction_from_vector 1 0 = "direita" := by
  have h := (direction_from_vector_sectors 1 0).2 (by norm_num)
  apply h.2.1.mpr
  have hat : atan2 0 1 = 0 := by
    rw [atan2, if_pos one_pos]
    norm_num [Real.arctan_zero]
  have hd : degrees (atan2 0 1) = 0 := by
    rw [hat, degrees, zero_mul]
  rw [hd]
  norm_num

/-! ## C6: RFIDReader.scan -/

theorem scanAux_all (r n : ℚ) (pos : Pt) :
    ∀ (products : List Product) (draws : ℕ → ℚ) (k : ℕ),
      (∀ p ∈ products, distance pos p.position ≤ (r : ℝ)) →
      (∀ i, n < draws i) →
      scanAux r n pos products draws k =
        products.map (fun p => (p.uid, distance pos p.position)) := by
  intro products
  induction products with
  | nil =>
    intro draws k _ _
    rfl
  | cons p ps ih =>
    intro draws k hin hd
    have hp := (distance_le_iff pos p.position r).mp
      (hin p (List.mem_cons_self p ps))
    rw [scanAux, if_pos hp, if_pos (hd k), List.map_cons,
      ih draws (k + 1) (fun q hq => hin q (List.mem_cons_of_mem p hq)) hd]

theorem scanAux_none (r n : ℚ) (pos : Pt) :
    ∀ (products : List Product) (draws : ℕ → ℚ) (k : ℕ),
      (∀ i, draws i ≤ n) →
      scanAux r n pos products draws k = [] := by
  intro products
  induction products with
  | nil =>
    intro draws k _
    rfl
  | cons p ps ih =>
    intro draws k hd
    rw [scanAux]
    by_cases hin : 0 ≤ r ∧ sqDist pos p.position ≤ r ^ 2
    · rw [if_pos hin, if_neg (not_lt.mpr (hd k))]
      exact ih draws (k + 1) hd
    · rw [if_neg hin]
      exact ih draws k hd

theorem scanAux_mem (r n : ℚ) (pos : Pt) :
    ∀ (products : List Product) (draws : ℕ → ℚ) (k : ℕ) (e : List Char × ℝ),
      e ∈ scanAux r n pos products draws k →
      ∃ p ∈ products, e = (p.uid, distance pos p.position) ∧
        distance pos p.position ≤ (r : ℝ) := by
  intro products
  induction products with
  | nil =>
    intro draws k e he
    exact absurd he (List.not_mem_nil e)
  | cons p ps ih =>
    intro draws k e he
    rw [scanAux] at he
    by_cases hin : 0 ≤ r ∧ sqDist pos p.position ≤ r ^ 2
    · rw [if_pos hin] at he
      by_cases hdk : n < draws k
      · rw [if_pos hdk] at he
        rcases List.mem_cons.mp he with rfl | he2
        · exact ⟨p, List.mem_cons_self p ps, rfl,
            (distance_le_iff pos p.position r).mpr hin⟩
        · rcases ih draws (k + 1) e he2 with ⟨q, hq, he3, hd3⟩
          exact ⟨q, List.mem_cons_of_mem p hq, he3, hd3⟩
      · rw [if_neg hdk] at he
        rcases ih draws (k + 1) e he with ⟨q, hq, he3, hd3⟩
        exact ⟨q, List.mem_cons_of_mem p hq, he3, hd3⟩
    · rw [if_neg hin] at he
      rcases ih draws k e he with ⟨q, hq, he3, hd3⟩
      exact ⟨q, List.mem_cons_of_mem p hq, he3, hd3⟩

/-- C6 (amended): when every product is in range and every draw strictly
exceeds the noise probability (in particular for noise probability 0 and
positive draws), `scan` returns every catalog product paired with its
distance, in catalog iteration order (it does not sort); when every draw is
at most the noise probability (in particular for noise probability 1, since
`random.random()` draws lie below 1), it returns the empty list; and in
every case an entry appears only for a catalog product whose distance is
within the configured range. -/
theorem scan_characterization :
    ∀ (r n : ℚ) (pos : Pt) (products : List Product) (draws : ℕ → ℚ),
      ((∀ p ∈ products, distance pos p.position ≤ (r : ℝ)) →
        (∀ i, n < draws i) →
        scan r n pos products draws =
          products.map (fun p => (p.uid, distance pos p.position))) ∧
      ((∀ i, draws i ≤ n) → scan r n pos products draws = []) ∧
      (∀ e ∈ scan r n pos products draws,
        ∃ p ∈ products, e = (p.uid, distance pos p.position) ∧
          distance pos p.position ≤ (r : ℝ)) :=
  fun r n pos products draws =>
    ⟨fun hin hd => scanAux_all r n pos products draws 0 hin hd,
      fun hd => scanAux_none r n pos products draws 0 hd,
      fun e he => scanAux_mem r n pos products draws 0 e he⟩

/-- C6 witness: with noise probability 0, draws of 1/2 and a range covering
the catalog, `scan` reports the product with its distance; with noise
probability 1 and the same draws it reports nothing. -/
theorem scan_characterization_witness :
    scan 10 0 ⟨0, 0⟩ [scanNear] halfDraws =
      [(scanNear.uid, distance ⟨0, 0⟩ scanNear.position)] ∧
    scan 10 1 ⟨0, 0⟩ [scanNear] halfDraws = [] := by
  constructor
  · have h := (scan_characterization 10 0 ⟨0, 0⟩ [scanNear] halfDraws).1
      (fun p hp => by
        rcases List.mem_singleton.mp hp with rfl
        exact (distance_le_iff _ _ _).mpr (by norm_num [sqDist, scanNear]))
      (fun i => by norm_num [halfDraws])
    simpa using h
  · exact (scan_characterization 10 1 ⟨0, 0⟩ [scanNear] halfDraws).2.1
      (fun i => by norm_num [halfDraws])

/-- C6 counterexample: with noise probability 0 and both products in range,
`scan` from the origin returns the catalog in insertion order — the farther
product (distance 5) first, the nearer one (distance 1) second — so the
result is not ordered closest-first as claimed. -/
theorem scan_not_sorted_cex :
    scan 10 0 ⟨0, 0⟩ [scanFar, scanNear] halfDraws =
      [(scanFar.uid, distance ⟨0, 0⟩ scanFar.position),
        (scanNear.uid, distance ⟨0, 0⟩ scanNear.position)] ∧
    distance ⟨0, 0⟩ scanNear.position < distance ⟨0, 0⟩ scanFar.position := by
  constructor
  · rw [scan, scanAux,
      if_pos (show (0 : ℚ) ≤ 10 ∧ sqDist ⟨0, 0⟩ scanFar.position ≤ 10 ^ 2 by
        norm_num [sqDist, scanFar]),
      if_pos (show (0 : ℚ) < halfDraws 0 by norm_num [halfDraws]),
      scanAux,
      if_pos (show (0 : ℚ) ≤ 10 ∧ sqDist ⟨0, 0⟩ scanNear.position ≤ 10 ^ 2 by
        norm_num [sqDist, scanNear]),
      if_pos (show (0 : ℚ) < halfDraws 1 by norm_num [halfDraws]),
      scanAux]
  · exact (distance_lt_distance_iff _ _ _ _).mpr
      (by norm_num [sqDist, scanNear, scanFar])

/-! ## Python min: first element with minimal key -/

theorem pyMinBy_spec (f : α → ℚ) :
    ∀ (l : List α) (a : α),
      pyMinBy f a l ∈ a :: l ∧
      (∀ x ∈ a :: l, f (pyMinBy f a l) ≤ f x) ∧
      ∃ l1 l2, a :: l = l1 ++ pyMinBy f a l :: l2 ∧
        ∀ x ∈ l1, f (pyMinBy f a l) < f x := by
  intro l
  induction l with
  | nil =>
    intro a
    refine ⟨List.mem_cons_self a [], fun x hx => ?_, [], [], rfl, fun x hx => absurd hx (List.not_mem_nil x)⟩
    rcases List.mem_cons.mp hx with rfl | hx2
    · exact le_refl _
    · exact absurd hx2 (List.not_mem_nil x)
  | cons x t ih =>
    intro a
    have hunfold : pyMinBy f a (x :: t) = pyMinBy f (if f x < f a then x else a) t := rfl
    by_cases hlt : f x < f a
    · rw [hunfold, if_pos hlt]
      rcases ih x with ⟨hm, hmin, l1, l2, heq, hstrict⟩
      refine ⟨List.mem_cons_of_mem a hm, fun y hy => ?_, a :: l1, l2, ?_, fun y hy => ?_⟩
      · rcases List.mem_cons.mp hy with rfl | hy2
        · exact le_trans (hmin x (List.mem_cons_self x t)) hlt.le
        · exact hmin y hy2
      · rw [List.cons_append, ← heq]
      · rcases List.mem_cons.mp hy with rfl | hy2
        · exact lt_of_le_of_lt (hmin x (List.mem_cons_self x t)) hlt
        · exact hstrict y hy2
    · rw [hunfold, if_neg hlt]
      rcases ih a with ⟨hm, hmin, l1, l2, heq, hstrict⟩
      have hax : f a ≤ f x := not_lt.mp hlt
      refine ⟨?_, fun y hy => ?_, ?_⟩
      · rcases List.mem_cons.mp hm with he | hm2
        · rw [he]
          exact List.mem_cons_self _ _
        · exact List.mem_cons_of_mem a (List.mem_cons_of_mem x hm2)
      · rcases List.mem_cons.mp hy with he | hy2
        · rw [he]
          exact hmin _ (List.mem_cons_self _ _)
        · rcases List.mem_cons.mp hy2 with he | hy3
          · rw [he]
            exact le_trans (hmin _ (List.mem_cons_self _ _)) hax
          · exact hmin y (List.mem_cons_of_mem a hy3)
      · cases l1 with
        | nil =>
          rw [List.nil_append] at heq
          injection heq with h1 h2
          refine ⟨[], x :: t, ?_, fun y hy => absurd hy (List.not_mem_nil y)⟩
          rw [List.nil_append, ← h1]
        | cons b l1' =>
          rw [List.cons_append] at heq
          injection heq with h1 h2
          refine ⟨a :: x :: l1', l2, ?_, fun y hy => ?_⟩
          · rw [List.cons_append, List.cons_append, ← h2]
          · have hamem : a ∈ b :: l1' := by
              rw [h1]
              exact List.mem_cons_self _ _
            rcases List.mem_cons.mp hy with he | hy2
            · rw [he]
              exact hstrict _ hamem
            · rcases List.mem_cons.mp hy2 with he | hy3
              · rw [he]
                exact lt_of_lt_of_le (hstrict _ hamem) hax
              · exact hstrict y (List.mem_cons_of_mem b hy3)

/-! ## The nearest-neighbour loop emits a StepMin chain -/

theorem nnLoop_chain (produtos : List RotaItem) :
    ∀ (fuel : ℕ) (a : RotaItem) (vis : List (List Char)),
      ChainNN produtos a vis (nnLoop produtos fuel a vis) := by
  intro fuel
  induction fuel with
  | zero =>
    intro a vis
    exact trivial
  | succ fuel ih =>
    intro a vis
    rw [nnLoop]
    by_cases hg : vis.length < produtos.length
    · rw [if_pos hg]
      cases hfil : produtos.filter (fun p => decide (p.produto ∉ vis)) with
      | nil => exact trivial
      | cons q qs =>
        show StepMin produtos a vis (pyMinBy (fun p => sqDist a.pos p.pos) q qs) ∧ _
        rcases pyMinBy_spec (fun p => sqDist a.pos p.pos) qs q with ⟨_, hmin, l1, l2, heq, hstrict⟩
        exact ⟨⟨l1, l2, by rw [hfil, heq], hstrict, by rw [← heq]; exact hmin⟩, ih _ _⟩
    · rw [if_neg hg]
      exact trivial

theorem chainNN_split (produtos : List RotaItem) :
    ∀ (pre : List RotaItem) (a : RotaItem) (vis : List (List Char)) (r : List RotaItem)
      (x b : RotaItem) (suf : List RotaItem),
      ChainNN produtos a vis r → a.produto ∈ vis →
      a :: r = pre ++ x :: b :: suf →
      ∃ vis2, StepMin produtos x vis2 b ∧
        ∀ k, k ∈ vis2 ↔ k ∈ vis ∨ k ∈ pre.map (fun p => p.produto) ∨ k = x.produto := by
  intro pre
  induction pre with
  | nil =>
    intro a vis r x b suf hchain hmem heq
    rw [List.nil_append] at heq
    injection heq with h1 h2
    subst h1
    rw [h2] at hchain
    refine ⟨vis, hchain.1, fun k => ⟨fun hk => Or.inl hk, ?_⟩⟩
    rintro (hk | hk | rfl)
    · exact hk
    · exact absurd hk (by simp)
    · exact hmem
  | cons p pre' ih =>
    intro a vis r x b suf hchain hmem heq
    rw [List.cons_append] at heq
    injection heq with h1 h2
    cases r with
    | nil => exact absurd h2 (by simp)
    | cons c rest =>
      rcases ih c (c.produto :: vis) rest x b suf hchain.2 (List.mem_cons_self _ _) h2 with
        ⟨vis2, hsm, hiff⟩
      have hc : c ∈ pre' ∨ c = x := by
        cases pre' with
        | nil =>
          rw [List.nil_append] at h2
          injection h2 with h3 _
          exact Or.inr h3
        | cons d pre'' =>
          rw [List.cons_append] at h2
          injection h2 with h3 _
          rw [h3]
          exact Or.inl (List.mem_cons_self d pre'')
      refine ⟨vis2, hsm, fun k => ?_⟩
      rw [hiff k, List.map_cons]
      constructor
      · rintro (hk | hk | rfl)
        · rcases List.mem_cons.mp hk with rfl | hk2
          · rcases hc with hcp | rfl
            · exact Or.inr (Or.inl (List.mem_cons_of_mem _
                (List.mem_map.mpr ⟨c, hcp, rfl⟩)))
            · exact Or.inr (Or.inr rfl)
          · exact Or.inl hk2
        · exact Or.inr (Or.inl (List.mem_cons_of_mem _ hk))
        · exact Or.inr (Or.inr rfl)
      · rintro (hk | hk | rfl)
        · exact Or.inl (List.mem_cons_of_mem _ hk)
        · rcases List.mem_cons.mp hk with rfl | hk2
          · exact Or.inl (List.mem_cons_of_mem _ (h1 ▸ hmem))
          · exact Or.inr (Or.inl hk2)
        · exact Or.inr (Or.inr rfl)

/-! ## The nearest-neighbour loop visits everything exactly once -/

theorem filter_notmem_cons (produtos : List RotaItem) (k0 : List Char)
    (vis : List (List Char)) :
    produtos.filter (fun p => decide (p.produto ∉ (k0 :: vis))) =
      (produtos.filter (fun p => decide (p.produto ∉ vis))).filter
        (fun p => decide (p.produto ≠ k0)) := by
  rw [List.filter_filter]
  apply List.filter_congr
  intro p _
  by_cases h1 : p.produto = k0
  · simp [h1]
  · by_cases h2 : p.produto ∈ vis
    · simp [h1, h2]
    · simp [h1, h2]

theorem filter_ne_key_eq_erase :
    ∀ (l : List RotaItem), (l.map (fun p => p.produto)).Nodup → ∀ m ∈ l,
      l.filter (fun p => decide (p.produto ≠ m.produto)) = l.erase m := by
  intro l
  induction l with
  | nil =>
    intro _ m hm
    exact absurd hm (List.not_mem_nil m)
  | cons a t ih =>
    intro hnd m hm
    rw [List.map_cons, List.nodup_cons] at hnd
    rcases List.mem_cons.mp hm with rfl | hm2
    · rw [List.filter_cons, List.erase_cons_head]
      have hd : decide (m.produto ≠ m.produto) = false := by simp
      rw [hd]
      simp only [Bool.false_eq_true, if_false]
      apply List.filter_eq_self.mpr
      intro p hp
      simp only [decide_eq_true_eq]
      intro he
      exact hnd.1 (List.mem_map.mpr ⟨p, hp, he⟩)
    · have hne : a.produto ≠ m.produto := by
        intro he
        exact hnd.1 (he ▸ List.mem_map.mpr ⟨m, hm2, rfl⟩)
      rw [List.filter_cons, List.erase_cons_tail (by simp; exact fun he => hne (by rw [he]))]
      have hd : decide (a.produto ≠ m.produto) = true := by simp [hne]
      rw [hd]
      simp only [if_true]
      rw [ih hnd.2 m hm2]

theorem filter_unvisited_nil (produtos : List RotaItem) (vis : List (List Char))
    (hnd : vis.Nodup) (hsub : ∀ k ∈ vis, k ∈ produtos.map (fun p => p.produto))
    (hlen : produtos.length ≤ vis.length) :
    produtos.filter (fun p => decide (p.produto ∉ vis)) = [] := by
  have hsp : List.Subperm vis (produtos.map (fun p => p.produto)) :=
    List.subperm_of_subset hnd (fun k hk => hsub k hk)
  have hperm : List.Perm vis (produtos.map (fun p => p.produto)) :=
    hsp.perm_of_length_le (by simpa using hlen)
  apply List.filter_eq_nil_iff.mpr
  intro p hp
  simp only [decide_eq_true_eq, not_not]
  exact hperm.symm.subset (List.mem_map.mpr ⟨p, hp, rfl⟩)

theorem nnLoop_succ_eq (produtos : List RotaItem) (fuel : ℕ) (a : RotaItem)
    (vis : List (List Char)) (q : RotaItem) (qs : List RotaItem)
    (hg : vis.length < produtos.length)
    (hfil : produtos.filter (fun p => decide (p.produto ∉ vis)) = q :: qs) :
    nnLoop produtos (fuel + 1) a vis =
      pyMinBy (fun p => sqDist a.pos p.pos) q qs ::
        nnLoop produtos fuel (pyMinBy (fun p => sqDist a.pos p.pos) q qs)
          ((pyMinBy (fun p => sqDist a.pos p.pos) q qs).produto :: vis) := by
  rw [nnLoop, if_pos hg, hfil]

theorem nnLoop_succ_nil (produtos : List RotaItem) (fuel : ℕ) (a : RotaItem)
    (vis : List (List Char))
    (hfil : produtos.filter (fun p => decide (p.produto ∉ vis)) = []) :
    nnLoop produtos (fuel + 1) a vis = [] := by
  rw [nnLoop]
  by_cases hg : vis.length < produtos.length
  · rw [if_pos hg, hfil]
  · rw [if_neg hg]

theorem nnLoop_perm (produtos : List RotaItem)
    (hnd : (produtos.map (fun p => p.produto)).Nodup) :
    ∀ (fuel : ℕ) (a : RotaItem) (vis : List (List Char)),
      vis.Nodup → (∀ k ∈ vis, k ∈ produtos.map (fun p => p.produto)) →
      produtos.length ≤ fuel + vis.length →
      (nnLoop produtos fuel a vis).Perm
        (produtos.filter (fun p => decide (p.produto ∉ vis))) := by
  intro fuel
  induction fuel with
  | zero =>
    intro a vis hv hsub hlen
    rw [nnLoop, filter_unvisited_nil produtos vis hv hsub (by omega)]
  | succ fuel ih =>
    intro a vis hv hsub hlen
    cases hfil : produtos.filter (fun p => decide (p.produto ∉ vis)) with
    | nil =>
      rw [nnLoop_succ_nil produtos fuel a vis hfil]
    | cons q qs =>
      have hg : vis.length < produtos.length := by
        by_contra hge
        push_neg at hge
        rw [filter_unvisited_nil produtos vis hv hsub hge] at hfil
        exact List.noConfusion hfil
      rw [nnLoop_succ_eq produtos fuel a vis q qs hg hfil]
      have hm0 : pyMinBy (fun p => sqDist a.pos p.pos) q qs ∈ q :: qs := by
        rcases pyMinBy_spec (fun p => sqDist a.pos p.pos) qs q with ⟨h0, _, _⟩
        exact h0
      generalize pyMinBy (fun p => sqDist a.pos p.pos) q qs = m at hm0 ⊢
      have hmmem : m ∈ produtos.filter (fun p => decide (p.produto ∉ vis)) := by
        rw [hfil]
        exact hm0
      have hmp : m ∈ produtos := (List.mem_filter.mp hmmem).1
      have hmk : m.produto ∉ vis := by
        have h2 := (List.mem_filter.mp hmmem).2
        simpa using h2
      have hrec := ih m (m.produto :: vis) (List.nodup_cons.mpr ⟨hmk, hv⟩)
        (fun k hk => by
          rcases List.mem_cons.mp hk with he | hk2
          · rw [he]
            exact List.mem_map.mpr ⟨m, hmp, rfl⟩
          · exact hsub k hk2)
        (by simp only [List.length_cons]; omega)
      have hstep : produtos.filter (fun p => decide (p.produto ∉ (m.produto :: vis))) =
          (produtos.filter (fun p => decide (p.produto ∉ vis))).erase m := by
        rw [filter_notmem_cons]
        apply filter_ne_key_eq_erase
        · exact List.Nodup.sublist ((List.filter_sublist produtos).map _) hnd
        · exact hmmem
      rw [hfil] at hmmem
      rw [hstep, hfil] at hrec
      exact (List.Perm.cons m hrec).trans (List.perm_cons_erase hmmem).symm

/-! ## C2: the route is a permutation of the located products -/

/-- C2: when the located products have pairwise distinct identifiers (their
`produto` names, the key the code dedups by — the spec's "set of distinct
Products, already deduplicated by identifier"), the computed route is a
permutation of the located products: same length, nothing visited twice,
nothing omitted, and every stop drawn from the located products. -/
theorem gerar_rota_perm :
    ∀ res rota, gerar_rota_otimizada res = Except.ok rota →
      ((okProds res).map (fun p => p.produto)).Nodup →
      List.Perm rota (okProds res) ∧ rota.length = (okProds res).length := by
  intro res rota hok hnd
  cases hprods : okProds res with
  | nil =>
    rw [gerar_rota_otimizada, hprods] at hok
    exact absurd hok (fun h => Except.noConfusion h)
  | cons p0 rest =>
    rw [gerar_rota_otimizada, hprods] at hok
    injection hok with hok
    rw [hprods] at hnd
    have hsub : ∀ k ∈ ([p0.produto] : List (List Char)),
        k ∈ (p0 :: rest).map (fun p => p.produto) := by
      intro k hk
      have h4 := List.mem_singleton.mp hk
      rw [h4]
      exact List.mem_map.mpr ⟨p0, List.mem_cons_self _ _, rfl⟩
    have hperm := nnLoop_perm (p0 :: rest) hnd ((p0 :: rest).length) p0 [p0.produto]
      (List.nodup_singleton _) hsub (by simp)
    have hfil : (p0 :: rest).filter
        (fun p => decide (p.produto ∉ ([p0.produto] : List (List Char)))) = rest := by
      rw [List.filter_cons]
      have hd : decide (p0.produto ∉ ([p0.produto] : List (List Char))) = false := by
        simp
      rw [hd]
      simp only [Bool.false_eq_true, if_false]
      apply List.filter_eq_self.mpr
      intro p hp
      rw [List.map_cons, List.nodup_cons] at hnd
      simp only [List.mem_singleton, decide_eq_true_eq]
      exact fun he => hnd.1 (List.mem_map.mpr ⟨p, hp, he⟩)
    rw [hfil] at hperm
    have hperm2 : List.Perm rota (p0 :: rest) := by
      rw [← hok]
      exact List.Perm.cons p0 hperm
    exact ⟨hperm2, hperm2.length_eq⟩

/-- C2 witness: on two located products with distinct names the route is a
permutation of the located set and has its length. -/
theorem gerar_rota_perm_witness :
    gerar_rota_otimizada [Resultado.ok cexFar, Resultado.ok cexNear] =
      Except.ok [cexFar, cexNear] ∧
    ((okProds [Resultado.ok cexFar, Resultado.ok cexNear]).map
      (fun p => p.produto)).Nodup ∧
    List.Perm [cexFar, cexNear] (okProds [Resultado.ok cexFar, Resultado.ok cexNear]) ∧
    ([cexFar, cexNear] : List RotaItem).length =
      (okProds [Resultado.ok cexFar, Resultado.ok cexNear]).length := by
  have h1 : gerar_rota_otimizada [Resultado.ok cexFar, Resultado.ok cexNear] =
      Except.ok [cexFar, cexNear] := by decide
  refine ⟨h1, by decide, ?_, ?_⟩
  · exact (gerar_rota_perm _ _ h1 (by decide)).1
  · exact (gerar_rota_perm _ _ h1 (by decide)).2

/-! ## C1: the greedy nearest-neighbour structure of the route -/

theorem routeSteps_map_fst (prev : Pt) :
    ∀ l : List Product, (routeSteps prev l).map Prod.fst = l := by
  intro l
  induction l generalizing prev with
  | nil => rfl
  | cons p rest ih =>
    rw [routeSteps, List.map_cons, ih]

instance (c : Pt) : IsTotal Product (planLe c) :=
  ⟨fun _ _ => le_total _ _⟩

instance (c : Pt) : IsTrans Product (planLe c) :=
  ⟨fun _ _ _ h1 h2 => le_trans h1 h2⟩

/-- C1 (amended): `gerar_rota_otimizada` ignores any starting position — the
first stop is the first located product, which initialises the current
position.  From there on the route is greedy nearest-neighbour: whenever the
route reads `pre ++ x :: b :: suf`, the products of the input not yet visited
(key not among the stops up to and including `x`), listed in input order,
split as `l1 ++ b :: l2` where `b` is strictly closer to `x` than every
unvisited product before it (Python's `min` keeps the first minimum — ties
break by first occurrence in the input) and at least as close as every
unvisited product: no unvisited product is strictly closer to `x` than `b`.
`AgentAI.plan_route`, by contrast, orders the resolved products by a single
stable sort on Euclidean distance from the starting position (not by
iterated nearest-neighbour steps). -/
theorem gerar_rota_greedy :
    (∀ res rota, gerar_rota_otimizada res = Except.ok rota →
      rota.head? = (okProds res).head? ∧
      ∀ pre x b suf, rota = pre ++ x :: b :: suf →
        ∃ l1 l2,
          (okProds res).filter
              (fun q => decide (q.produto ∉ (pre ++ [x]).map (fun p => p.produto))) =
            l1 ++ b :: l2 ∧
          (∀ q ∈ l1, distance x.pos b.pos < distance x.pos q.pos) ∧
          (∀ q ∈ l1 ++ b :: l2, distance x.pos b.pos ≤ distance x.pos q.pos)) ∧
    (∀ (pos : Pt) (items : List (List Char)) (store : List Product),
      List.Perm ((plan_route pos items store).map Prod.fst)
        (items.filterMap (fun it => find_by_name it store)) ∧
      List.Sorted (fun p q : Product =>
        distance pos p.position ≤ distance pos q.position)
        ((plan_route pos items store).map Prod.fst)) := by
  constructor
  case right =>
    intro pos items store
    have hmf : (plan_route pos items store).map Prod.fst =
        (items.filterMap (fun it => find_by_name it store)).insertionSort
          (planLe pos) :=
      routeSteps_map_fst pos _
    constructor
    · rw [hmf]
      exact List.perm_insertionSort (planLe pos) _
    · rw [hmf]
      have hs := List.sorted_insertionSort (planLe pos)
        (items.filterMap (fun it => find_by_name it store))
      exact List.Pairwise.imp
        (fun h => (distance_le_distance_iff _ _ _ _).mpr h) hs
  case left =>
  intro res rota hok
  cases hprods : okProds res with
  | nil =>
    rw [gerar_rota_otimizada, hprods] at hok
    exact absurd hok (fun h => Except.noConfusion h)
  | cons p0 rest =>
    rw [gerar_rota_otimizada, hprods] at hok
    injection hok with hok
    constructor
    · rw [← hok]
      rfl
    · intro pre x b suf hsplit
      have hchain := nnLoop_chain (p0 :: rest) ((p0 :: rest).length) p0 [p0.produto]
      have hsplit2 : p0 :: nnLoop (p0 :: rest) ((p0 :: rest).length) p0 [p0.produto] =
          pre ++ x :: b :: suf := by
        rw [hok, hsplit]
      rcases chainNN_split (p0 :: rest) pre p0 [p0.produto] _ x b suf hchain
        (List.mem_singleton.mpr rfl) hsplit2 with ⟨vis2, hsm, hiff⟩
      rcases hsm with ⟨l1, l2, heq, hstrict, hmin⟩
      have hp0 : p0 ∈ pre ∨ p0 = x := by
        cases pre with
        | nil =>
          rw [List.nil_append] at hsplit2
          injection hsplit2 with h3 _
          exact Or.inr h3
        | cons d pre'' =>
          rw [List.cons_append] at hsplit2
          injection hsplit2 with h3 _
          rw [h3]
          exact Or.inl (List.mem_cons_self d pre'')
      have hfe : (p0 :: rest).filter (fun p2 => decide (p2.produto ∉ vis2)) =
          (p0 :: rest).filter
            (fun q2 => decide (q2.produto ∉ (pre ++ [x]).map (fun p => p.produto))) := by
        apply List.filter_congr
        intro p2 _
        apply decide_eq_decide.mpr
        rw [not_iff_not, hiff p2.produto, List.map_append]
        constructor
        · rintro (hk | hk | hk)
          · have h4 := List.mem_singleton.mp hk
            rcases hp0 with h5 | h5
            · rw [h4]
              exact List.mem_append.mpr (Or.inl (List.mem_map.mpr ⟨p0, h5, rfl⟩))
            · rw [h4, h5]
              exact List.mem_append.mpr (Or.inr (by simp))
          · exact List.mem_append.mpr (Or.inl hk)
          · rw [hk]
            exact List.mem_append.mpr (Or.inr (by simp))
        · intro hk
          rcases List.mem_append.mp hk with hk2 | hk2
          · exact Or.inr (Or.inl hk2)
          · exact Or.inr (Or.inr (by simpa using hk2))
      refine ⟨l1, l2, ?_, ?_, ?_⟩
      · rw [← hfe]
        exact heq
      · intro q2 hq2
        exact (distance_lt_distance_iff _ _ _ _).mpr (hstrict q2 hq2)
      · intro q2 hq2
        exact (distance_le_distance_iff _ _ _ _).mpr (hmin q2 hq2)

/-- C1 witness: on products a@(0,0), b@(3,0), c@(3,4) (in that input order)
the code produces the route [a, b, c], and the theorem instantiated at the
adjacent pair (a, b) yields that b is no farther from a than the still
unvisited c. -/
theorem gerar_rota_greedy_witness :
    gerar_rota_otimizada exRes = Except.ok exRota ∧
    distance exA.pos exB.pos ≤ distance exA.pos exC.pos := by
  have hokp : okProds exRes = [exA, exB, exC] := by decide
  have hfil1 : ([exA, exB, exC] : List RotaItem).filter
      (fun p => decide (p.produto ∉ ([exA.produto] : List (List Char)))) =
      [exB, exC] := by decide
  have hmin1 : pyMinBy (fun p => sqDist exA.pos p.pos) exB [exC] = exB := by
    rw [pyMinBy]
    simp only [List.foldl_cons, List.foldl_nil]
    rw [if_neg (by norm_num [sqDist, exA, exB, exC, RotaItem.pos])]
  have hfil2 : ([exA, exB, exC] : List RotaItem).filter
      (fun p => decide (p.produto ∉ ([exB.produto, exA.produto] : List (List Char)))) =
      [exC] := by decide
  have h1 : gerar_rota_otimizada exRes = Except.ok exRota := by
    rw [gerar_rota_otimizada, hokp]
    show Except.ok (exA :: nnLoop [exA, exB, exC]
      (([exA, exB, exC] : List RotaItem).length) exA [exA.produto]) = Except.ok exRota
    have e3 : nnLoop [exA, exB, exC] (([exA, exB, exC] : List RotaItem).length)
        exA [exA.produto] =
        exB :: nnLoop [exA, exB, exC] 2 exB [exB.produto, exA.produto] := by
      have h := nnLoop_succ_eq [exA, exB, exC] 2 exA [exA.produto] exB [exC]
        (by decide) hfil1
      rw [hmin1] at h
      exact h
    have e2 : nnLoop [exA, exB, exC] 2 exB [exB.produto, exA.produto] =
        exC :: nnLoop [exA, exB, exC] 1 exC
          [exC.produto, exB.produto, exA.produto] := by
      have h := nnLoop_succ_eq [exA, exB, exC] 1 exB [exB.produto, exA.produto]
        exC [] (by decide) hfil2
      exact h
    have e1 : nnLoop [exA, exB, exC] 1 exC
        [exC.produto, exB.produto, exA.produto] = [] :=
      nnLoop_succ_nil [exA, exB, exC] 0 exC _ (by decide)
    rw [e3, e2, e1, exRota]
  refine ⟨h1, ?_⟩
  rcases (gerar_rota_greedy.1 exRes exRota h1).2 [] exA exB [exC] rfl with
    ⟨l1, l2, heq2, _, hmin2⟩
  have hmemC : exC ∈ (okProds exRes).filter
      (fun q => decide (q.produto ∉
        ((([] : List RotaItem) ++ [exA]).map (fun p => p.produto)))) := by decide
  exact hmin2 exC (heq2 ▸ hmemC)

/-- C1 counterexample: the route generator does not start from the shopper's
position — with starting position (0, 0) and input products f@(5,5) then
n@(1,1), the first stop is f although n is strictly closer to the starting
position, and the current position is initialised to f's position, not to
the starting position. -/
theorem gerar_rota_ignores_start_cex :
    gerar_rota_otimizada [Resultado.ok cexFar, Resultado.ok cexNear] =
      Except.ok [cexFar, cexNear] ∧
    cexNear ∈ okProds [Resultado.ok cexFar, Resultado.ok cexNear] ∧
    distance ⟨0, 0⟩ cexNear.pos < distance ⟨0, 0⟩ cexFar.pos ∧
    cexFar ≠ cexNear := by
  refine ⟨by decide, by decide, ?_, by decide⟩
  exact (distance_lt_distance_iff _ _ _ _).mpr
    (by norm_num [sqDist, cexFar, cexNear, RotaItem.pos])

end VocalPath
